import Mathlib

/-!
Shallow embedding of the format-neutral object-file builder
(`src/write/mod.rs`): the in-memory data model (`Object`, `Section`,
`Symbol`, `Relocation`), its mutation operations, and the relocation
pipeline.  Rust `u8`/`u64` values are modelled as `Nat` (with explicit
`% 2 ^ w` where truncating casts occur), `i64` as `Int`, byte buffers as
`List Nat`, and the `HashMap`s as association lists with first-match
lookup (insertion conses, so insertion overwrites).  Fallible operations
return `Except Error`; `debug_assert!` preconditions appear as theorem
hypotheses.  Types that live in `common.rs` / `util.rs` / the per-format
modules (which are not part of the analyzed source) are modelled from the
spec and marked as such.
-/

namespace ObjectWrite

/-- Modelled from the spec: byte order declared at construction
(`crate::endian::Endianness`, not in the analyzed source). -/
inductive Endianness where
  | Little
  | Big
deriving DecidableEq, Repr

/-- Modelled from the spec: the closed set of container formats the
builder targets (`BinaryFormat` lives in `common.rs`, not in the
analyzed source). -/
inductive BinaryFormat where
  | Coff
  | Elf
  | MachO
  | Xcoff
deriving DecidableEq, Repr

/-- Modelled from the spec: architectures, reduced to the cases the
mangling default distinguishes (`Architecture` lives in `common.rs`). -/
inductive Architecture where
  | I386
  | X86_64
  | Aarch64
  | OtherArch
deriving DecidableEq, Repr

/-- Modelled from the spec: section kinds (`SectionKind` in `common.rs`). -/
inductive SectionKind where
  | Text
  | Data
  | ReadOnlyData
  | ReadOnlyDataWithRel
  | ReadOnlyString
  | UninitializedData
  | Tls
  | UninitializedTls
  | TlsVariables
  | Common
  | Note
deriving DecidableEq, Repr

/-- Modelled from the spec: a section kind holds zero-initialized data
(`SectionKind::is_bss` in `common.rs`). -/
def SectionKind.is_bss : SectionKind → Bool
  | .UninitializedData => true
  | .UninitializedTls => true
  | .Common => true
  | _ => false

/-- Modelled from the spec: symbol kinds exercised by the core
(`SymbolKind` in `common.rs`). -/
inductive SymbolKind where
  | Unknown
  | Text
  | Data
  | Section
  | File
  | Tls
deriving DecidableEq, Repr

/-- Modelled from the spec: symbol scopes (`SymbolScope` in `common.rs`). -/
inductive SymbolScope where
  | Unknown
  | Compilation
  | Linkage
  | Dynamic
deriving DecidableEq, Repr

/-- Modelled from the spec: format-specific file flags, abstracted as
"unset" versus an opaque format-specific value (`FileFlags` in
`common.rs`). -/
inductive FileFlags where
  | None
  | Other (v : Nat)
deriving DecidableEq, Repr

/-- Modelled from the spec: format-specific section flags, abstracted as
"unset" versus an opaque value (`SectionFlags` in `common.rs`). -/
inductive SectionFlags where
  | None
  | Other (v : Nat)
deriving DecidableEq, Repr

/-- Modelled from the spec: format-specific symbol flags, abstracted as
"unset" versus an opaque value (`SymbolFlags` in `common.rs`). -/
inductive SymbolFlags where
  | None
  | Other (v : Nat)
deriving DecidableEq, Repr

/-- Modelled from the spec: the fields that define a relocation type,
abstracted as an opaque value (`RelocationFlags` in `common.rs`). -/
abbrev RelocationFlags := Nat

/-- `SectionId(usize)`: index into the append-only section store. -/
abbrev SectionId := Nat

/-- `SymbolId(usize)`: index into the append-only symbol table. -/
abbrev SymbolId := Nat

/-- `ComdatId(usize)`: index into the append-only COMDAT store. -/
abbrev ComdatId := Nat

/-- ASCII bytes of a string literal, for byte-string names. -/
def str (s : String) : List Nat := s.toList.map Char.toNat

/-- First-match lookup in an association list (models `HashMap::get`;
insertion conses a pair, so it models `HashMap::insert` overwriting). -/
def lookupKey {α β : Type} [DecidableEq α] : List (α × β) → α → Option β
  | [], _ => none
  | (k, v) :: rest, key => if key = k then some v else lookupKey rest key

/-- `Relocation` (`src/write/mod.rs` line 1031). -/
structure Relocation where
  offset : Nat
  symbol : SymbolId
  addend : Int
  flags : RelocationFlags
deriving DecidableEq, Repr

/-- The `write` module error, modelled as structured data carrying
exactly what the source's formatted message interpolates
(`Error(String)`, `src/write/mod.rs` line 52). -/
inductive Error where
  /-- "unimplemented relocation addend {:?}" -/
  | unimplementedAddend (relocation : Relocation)
  /-- "invalid relocation offset {}+{} (max {})" -/
  | invalidOffset (offset : Nat) (size : Nat) (maxLen : Nat)
  /-- Errors produced inside the per-format policy functions. -/
  | other (msg : List Nat)
deriving DecidableEq, Repr

/-- `SymbolSection` (`src/write/mod.rs` line 947). -/
inductive SymbolSection where
  | None
  | Undefined
  | Absolute
  | Common
  | Section (id : SectionId)
deriving DecidableEq, Repr

/-- `SymbolSection::id` (`src/write/mod.rs` line 965). -/
def SymbolSection.id : SymbolSection → Option SectionId
  | .Section id => some id
  | _ => none

/-- `Section` (`src/write/mod.rs` line 838).  The source field `section`
of `Symbol` and keyword clashes are renamed (`sect`); byte content
(`Cow<[u8]>`) is a `List Nat`. -/
structure Section where
  segment : List Nat
  name : List Nat
  kind : SectionKind
  size : Nat
  align : Nat
  data : List Nat
  relocations : List Relocation
  symbol : Option SymbolId
  flags : SectionFlags
deriving DecidableEq, Repr

instance : Inhabited Section :=
  ⟨⟨[], [], .Data, 0, 1, [], [], none, .None⟩⟩

/-- `Section::is_bss` (`src/write/mod.rs` line 866). -/
def Section.is_bss (s : Section) : Bool := s.kind.is_bss

/-- `Section::append_data` (`src/write/mod.rs` lines 890-906).  Returns
the updated section and the section offset of the data.
`debug_assert!(!self.is_bss())` and the power-of-two assertion on
`align` are preconditions carried by the theorems. -/
def Section.append_data (s : Section) (appendData : List Nat) (align : Nat) :
    Section × Nat :=
  let s1 := if s.align < align then { s with align := align } else s
  let len := s1.data.length
  let offset :=
    if len &&& (align - 1) ≠ 0 then len + (align - (len &&& (align - 1)))
    else len
  let padded :=
    if len &&& (align - 1) ≠ 0 then s1.data ++ List.replicate (offset - len) 0
    else s1.data
  let data := padded ++ appendData
  ({ s1 with data := data, size := data.length }, offset)

/-- `Section::append_bss` (`src/write/mod.rs` lines 912-925).  Returns
the updated section and the section offset.
`debug_assert!(self.is_bss())` and the power-of-two assertion on `align`
are preconditions carried by the theorems. -/
def Section.append_bss (s : Section) (size : Nat) (align : Nat) :
    Section × Nat :=
  let s1 := if s.align < align then { s with align := align } else s
  let cur := s1.size
  let offset :=
    if cur &&& (align - 1) ≠ 0 then cur + (align - (cur &&& (align - 1)))
    else cur
  ({ s1 with size := offset + size }, offset)

/-- One append call issued against a section: either
`append_data(bytes, align)` or `append_bss(size, align)`. -/
inductive AppendOp where
  | appendData (bytes : List Nat) (align : Nat)
  | appendBss (size : Nat) (align : Nat)
deriving DecidableEq, Repr

/-- The alignment passed to an append call. -/
def AppendOp.align : AppendOp → Nat
  | .appendData _ a => a
  | .appendBss _ a => a

/-- The `debug_assert!` guards of `append_data` / `append_bss`: data
appends require a non-bss section, zero-fill appends a bss section. -/
def AppendOp.matchesKind (k : SectionKind) : AppendOp → Prop
  | .appendData _ _ => k.is_bss = false
  | .appendBss _ _ => k.is_bss = true

/-- Execute one append call on a section. -/
def AppendOp.apply (s : Section) : AppendOp → Section × Nat
  | .appendData bytes a => s.append_data bytes a
  | .appendBss size a => s.append_bss size a

/-- Execute a sequence of append calls, collecting the returned offsets
in call order. -/
def applyOps (s : Section) : List AppendOp → Section × List Nat
  | [] => (s, [])
  | op :: ops =>
    let so := op.apply s
    let rest := applyOps so.1 ops
    (rest.1, so.2 :: rest.2)

/-- `Symbol` (`src/write/mod.rs` line 980).  The source field `section`
is renamed `sect` (`section` is a Lean keyword). -/
structure Symbol where
  name : List Nat
  value : Nat
  size : Nat
  kind : SymbolKind
  scope : SymbolScope
  weak : Bool
  sect : SymbolSection
  flags : SymbolFlags
deriving DecidableEq, Repr

instance : Inhabited Symbol :=
  ⟨⟨[], 0, 0, .Unknown, .Unknown, false, .None, .None⟩⟩

/-- `Symbol::is_undefined` (`src/write/mod.rs` line 1010). -/
def Symbol.is_undefined (s : Symbol) : Bool := s.sect = SymbolSection.Undefined

/-- `Comdat` (`src/write/mod.rs` line 1052), with the selection kind
abstracted as a `Nat` (`ComdatKind` lives in `common.rs`). -/
structure Comdat where
  kind : Nat
  symbol : SymbolId
  sections : List SectionId
deriving DecidableEq, Repr

/-- `StandardSegment` (`src/write/mod.rs` line 768). -/
inductive StandardSegment where
  | Text
  | Data
  | Debug
deriving DecidableEq, Repr

/-- `StandardSection` (`src/write/mod.rs` line 778). -/
inductive StandardSection where
  | Text
  | Data
  | ReadOnlyData
  | ReadOnlyDataWithRel
  | ReadOnlyString
  | UninitializedData
  | Tls
  | UninitializedTls
  | TlsVariables
  | Common
  | GnuProperty
deriving DecidableEq, Repr

/-- `StandardSection::kind` (`src/write/mod.rs` lines 798-812). -/
def StandardSection.kind : StandardSection → SectionKind
  | .Text => .Text
  | .Data => .Data
  | .ReadOnlyData => .ReadOnlyData
  | .ReadOnlyDataWithRel => .ReadOnlyDataWithRel
  | .ReadOnlyString => .ReadOnlyString
  | .UninitializedData => .UninitializedData
  | .Tls => .Tls
  | .UninitializedTls => .UninitializedTls
  | .TlsVariables => .TlsVariables
  | .Common => .Common
  | .GnuProperty => .Note

/-- `StandardSection::all` (`src/write/mod.rs` lines 815-829). -/
def StandardSection.all : List StandardSection :=
  [.Text, .Data, .ReadOnlyData, .ReadOnlyDataWithRel, .ReadOnlyString,
   .UninitializedData, .Tls, .UninitializedTls, .TlsVariables, .Common,
   .GnuProperty]

/-- `Mangling` (`src/write/mod.rs` line 1070). -/
inductive Mangling where
  | None
  | Coff
  | CoffI386
  | Elf
  | MachO
  | Xcoff
deriving DecidableEq, Repr

/-- `Mangling::default` (`src/write/mod.rs` lines 1087-1096). -/
def Mangling.defaultFor (format : BinaryFormat) (architecture : Architecture) :
    Mangling :=
  match format, architecture with
  | .Coff, .I386 => .CoffI386
  | .Coff, _ => .Coff
  | .Elf, _ => .Elf
  | .MachO, _ => .MachO
  | .Xcoff, _ => .Xcoff

/-- `Mangling::global_prefix` (`src/write/mod.rs` lines 1099-1104):
the byte prepended to linkable global symbol names, `b'_'` = 95. -/
def Mangling.globalPrefixByte : Mangling → Option Nat
  | .None | .Elf | .Coff | .Xcoff => none
  | .CoffI386 | .MachO => some 95

/-- Modelled from the spec: the per-format standard-section policy table
(`coff_section_info` / `elf_section_info` / `macho_section_info` /
`xcoff_section_info`, which live in the per-format modules outside the
analyzed source).  Each role maps to (segment, name, kind, default
flags); default flags are "unset" (derive from kind via policy).  COFF
realizes the read-only-data and read-only-string roles by the same
concrete section, the spec's example of coinciding roles. -/
def sectionInfo (format : BinaryFormat) (s : StandardSection) :
    List Nat × List Nat × SectionKind × SectionFlags :=
  match format, s with
  | .Coff, .ReadOnlyData => ([], str ".rdata", .ReadOnlyData, .None)
  | .Coff, .ReadOnlyString => ([], str ".rdata", .ReadOnlyData, .None)
  | .Coff, .Text => ([], str ".text", .Text, .None)
  | .Coff, .Data => ([], str ".data", .Data, .None)
  | .Coff, r => ([], str ".coff", r.kind, .None)
  | .Elf, .Text => ([], str ".text", .Text, .None)
  | .Elf, .Data => ([], str ".data", .Data, .None)
  | .Elf, .ReadOnlyData => ([], str ".rodata", .ReadOnlyData, .None)
  | .Elf, .UninitializedData => ([], str ".bss", .UninitializedData, .None)
  | .Elf, r => ([], str ".elf", r.kind, .None)
  | .MachO, .Text => (str "__TEXT", str "__text", .Text, .None)
  | .MachO, .Data => (str "__DATA", str "__data", .Data, .None)
  | .MachO, .Common => (str "__DATA", str "__common", .Common, .None)
  | .MachO, r => (str "__DATA", str "__macho", r.kind, .None)
  | .Xcoff, .Text => ([], str ".text", .Text, .None)
  | .Xcoff, r => ([], str ".xcoff", r.kind, .None)

/-- The (segment, name, kind) triple of a standard-section role under a
format: the part of `sectionInfo` that `add_section` matches against. -/
def sectionTriple (format : BinaryFormat) (s : StandardSection) :
    List Nat × List Nat × SectionKind :=
  ((sectionInfo format s).1, (sectionInfo format s).2.1,
   (sectionInfo format s).2.2.1)

/-- `Object::subsection_name` (`src/write/mod.rs` lines 324-334),
dispatching to per-format synthesis modelled from the spec
(`coff_subsection_name` / `elf_subsection_name` are outside the analyzed
source): the discriminator is appended to the parent section name with a
format-specific separator.  For every other format the source panics
(`unimplemented!`), modelled as `none`; via `add_subsection` this panic
is reachable for XCOFF (Mach-O takes the subsections-via-symbols
branch). -/
def subsectionName (format : BinaryFormat) (sect : List Nat)
    (value : List Nat) : Option (List Nat) :=
  match format with
  | .Coff => some (sect ++ str "$" ++ value)
  | .Elf => some (sect ++ str "." ++ value)
  | _ => none

/-- `Object` (`src/write/mod.rs` line 71).  The two `HashMap`s are
association lists; the cfg-gated per-format caches that no analyzed code
touches (`stub_symbols`, `tlv_bootstrap`, `macho_cpu_subtype`,
`macho_build_version`) are omitted; `macho_subsections_via_symbols` is
kept because `set_subsections_via_symbols` writes it. -/
structure Object where
  format : BinaryFormat
  architecture : Architecture
  sub_architecture : Option Nat
  endian : Endianness
  sections : List Section
  standard_sections : List (StandardSection × SectionId)
  symbols : List Symbol
  symbol_map : List (List Nat × SymbolId)
  comdats : List Comdat
  flags : FileFlags
  mangling : Mangling
  macho_subsections_via_symbols : Bool
deriving DecidableEq, Repr

namespace Object

/-- `Object::new` (`src/write/mod.rs` lines 102-126). -/
def new (format : BinaryFormat) (architecture : Architecture)
    (endian : Endianness) : Object :=
  { format := format
    architecture := architecture
    sub_architecture := none
    endian := endian
    sections := []
    standard_sections := []
    symbols := []
    symbol_map := []
    comdats := []
    flags := .None
    mangling := Mangling.defaultFor format architecture
    macho_subsections_via_symbols := false }

/-- `Object::section_mut(id).flags = flags` as used by `section_id` and
`add_subsection`. -/
def setSectionFlags (o : Object) (id : SectionId) (flags : SectionFlags) :
    Object :=
  { o with sections :=
      o.sections.set id { o.sections.getD id default with flags := flags } }

/-- The registration loop inside `Object::add_section`
(`src/write/mod.rs` lines 250-259): for each standard section not yet
registered whose policy triple matches the new section's triple, insert
a mapping to the new section. -/
def registerStandard (format : BinaryFormat) (triple : List Nat × List Nat × SectionKind)
    (id : SectionId) :
    List StandardSection → List (StandardSection × SectionId) →
      List (StandardSection × SectionId)
  | [], m => m
  | ss :: rest, m =>
    let m' :=
      if (lookupKey m ss).isNone ∧ sectionTriple format ss = triple then
        (ss, id) :: m
      else
        m
    registerStandard format triple id rest m'

/-- `Object::add_section` (`src/write/mod.rs` lines 236-262): appends a
new empty section and opportunistically registers it for every matching,
not-yet-registered standard-section role. -/
def add_section (o : Object) (segment : List Nat) (name : List Nat)
    (kind : SectionKind) : SectionId × Object :=
  let id := o.sections.length
  let o := { o with sections := o.sections ++
      [({ segment := segment, name := name, kind := kind, size := 0,
          align := 1, data := [], relocations := [], symbol := none,
          flags := .None } : Section)] }
  let o := { o with standard_sections :=
      (registerStandard o.format (segment, name, kind) id StandardSection.all
        o.standard_sections) }
  (id, o)

/-- `Object::section_id` (`src/write/mod.rs` lines 221-231): cached
lookup of a standard section, creating it on first use from the policy
tuple. -/
def section_id (o : Object) (s : StandardSection) : SectionId × Object :=
  match lookupKey o.standard_sections s with
  | some id => (id, o)
  | none =>
    let info := sectionInfo o.format s
    let io := o.add_section info.1 info.2.1 info.2.2.1
    (io.1, io.2.setSectionFlags io.1 info.2.2.2)

/-- `Object::has_subsections_via_symbols` (`src/write/mod.rs` lines
297-299): a property of the format alone, independent of the
`macho_subsections_via_symbols` switch. -/
def has_subsections_via_symbols (o : Object) : Bool :=
  o.format = BinaryFormat.MachO

/-- `Object::set_subsections_via_symbols` (`src/write/mod.rs` lines
307-312): sets the Mach-O flag; does nothing for other formats. -/
def set_subsections_via_symbols (o : Object) : Object :=
  if o.format = BinaryFormat.MachO then
    { o with macho_subsections_via_symbols := true }
  else
    o

/-- `Object::subsection_info` (`src/write/mod.rs` lines 314-322).
`none` propagates the `unimplemented!` panic of `subsection_name`. -/
def subsection_info (o : Object) (s : StandardSection) (value : List Nat) :
    Option (List Nat × List Nat × SectionKind × SectionFlags) :=
  let info := sectionInfo o.format s
  match subsectionName o.format info.2.1 value with
  | some name => some (info.1, name, info.2.2.1, info.2.2.2)
  | none => none

/-- `Object::add_subsection` (`src/write/mod.rs` lines 286-295).
`none` is the `unimplemented!` panic raised by `subsection_name` for
formats without subsection-name synthesis (reachable for XCOFF). -/
def add_subsection (o : Object) (s : StandardSection) (name : List Nat) :
    Option (SectionId × Object) :=
  if o.has_subsections_via_symbols then
    some (o.section_id s)
  else
    match o.subsection_info s name with
    | some info =>
      let io := o.add_section info.1 info.2.1 info.2.2.1
      some (io.1, io.2.setSectionFlags io.1 info.2.2.2)
    | none => none

/-- `Object::symbol_id` (`src/write/mod.rs` lines 392-394). -/
def symbol_id (o : Object) (name : List Nat) : Option SymbolId :=
  lookupKey o.symbol_map name

/-- `Object::add_raw_symbol` (`src/write/mod.rs` lines 445-449). -/
def add_raw_symbol (o : Object) (symbol : Symbol) : SymbolId × Object :=
  (o.symbols.length, { o with symbols := o.symbols ++ [symbol] })

/-- `Object::section_symbol` (`src/write/mod.rs` lines 533-556):
get-or-create the canonical section symbol of a section. -/
def section_symbol (o : Object) (section_id : SectionId) : SymbolId × Object :=
  let sec := o.sections.getD section_id default
  match sec.symbol with
  | some symbol => (symbol, o)
  | none =>
    let name := if o.format = BinaryFormat.Coff then sec.name else []
    let symbolId := o.symbols.length
    let o := { o with symbols := o.symbols ++
        [({ name := name, value := 0, size := 0, kind := .Section,
            scope := .Compilation, weak := false,
            sect := .Section section_id, flags := .None } : Symbol)] }
    let o := { o with sections := (o.sections.set section_id
        { o.sections.getD section_id default with symbol := some symbolId }) }
    (symbolId, o)

/-- `Object::add_symbol` (`src/write/mod.rs` lines 416-443).  The
`debug_assert!` on scope is a precondition; `symbol.section.id().unwrap()`
panics when a section-kind symbol carries no section, modelled by
`Option.getD` on the (hypothesis-guarded) defined domain. -/
def add_symbol (o : Object) (symbol : Symbol) : SymbolId × Object :=
  if symbol.kind = SymbolKind.Section then
    let sid := symbol.sect.id.getD 0
    let so := o.section_symbol sid
    let symbolId := so.1
    let o := so.2
    let o :=
      if symbol.flags ≠ SymbolFlags.None then
        { o with symbols := (o.symbols.set symbolId
            { o.symbols.getD symbolId default with flags := symbol.flags }) }
      else
        o
    (symbolId, o)
  else
    if symbol.name ≠ [] ∧ (symbol.kind = SymbolKind.Text ∨
        symbol.kind = SymbolKind.Data ∨ symbol.kind = SymbolKind.Tls) then
      let unmangledName := symbol.name
      let symbol :=
        match o.mangling.globalPrefixByte with
        | some p => { symbol with name := p :: symbol.name }
        | none => symbol
      let so := o.add_raw_symbol symbol
      (so.1, { so.2 with symbol_map := (unmangledName, so.1) :: so.2.symbol_map })
    else
      o.add_raw_symbol symbol

end Object

/-- Little-endian byte decomposition of a value into `n` bytes. -/
def leBytes : Nat → Nat → List Nat
  | 0, _ => []
  | n + 1, v => v % 256 :: leBytes n (v / 256)

/-- Modelled from the spec: `U32::new(endian, v)` / `U64::new(endian, v)`
(`crate::endian`, outside the analyzed source) — a value laid out as
`n` bytes in the declared byte order. -/
def encodeEndian (e : Endianness) (n : Nat) (v : Nat) : List Nat :=
  match e with
  | .Little => leBytes n v
  | .Big => (leBytes n v).reverse

/-- The Rust truncating cast `addend as uN`: two's-complement value
modulo `2 ^ w`. -/
def toUnsigned (w : Nat) (i : Int) : Nat := (i % ((2 : Int) ^ w)).toNat

/-- Modelled from the spec: `write_at` on the section byte buffer
(`src/write/util.rs`, outside the analyzed source): overwrites
`val.length` bytes at `offset` if they fit entirely inside the buffer,
and fails without writing anything otherwise. -/
def writeAt (data : List Nat) (offset : Nat) (val : List Nat) :
    Option (List Nat) :=
  if offset + val.length ≤ data.length then
    some (data.take offset ++ val ++ data.drop (offset + val.length))
  else
    none

/-- Modelled from the spec: the per-format relocation policy
(`*_translate_relocation`, `*_adjust_addend`, `*_relocation_size`, which
live in the per-format modules outside the analyzed source).
Translation converts the generic relocation-type description into the
concrete per-format encoding (the `flags` field); addend classification
answers whether the type stores its addend implicitly in the section
bytes; the size is the addend's on-disk width in bits. -/
structure RelocPolicy where
  translate : Relocation → Except Error RelocationFlags
  adjustAddend : Relocation → Except Error Bool
  relocationSize : Relocation → Except Error Nat

namespace Object

/-- `Object::write_relocation_addend` (`src/write/mod.rs` lines
688-724), with the per-format dispatch abstracted into `p`.  Returns the
call outcome together with the (possibly updated) object, mirroring
`&mut self`. -/
def write_relocation_addend (p : RelocPolicy) (o : Object)
    (sectionId : SectionId) (relocation : Relocation) :
    Except Error Unit × Object :=
  match p.relocationSize relocation with
  | .error e => (.error e, o)
  | .ok size =>
    let sec := o.sections.getD sectionId default
    if size = 32 then
      match writeAt sec.data relocation.offset
          (encodeEndian o.endian 4 (toUnsigned 32 relocation.addend)) with
      | some newData =>
        (.ok (), { o with sections := (o.sections.set sectionId
            { sec with data := newData }) })
      | none =>
        (.error (.invalidOffset relocation.offset 32 sec.data.length), o)
    else if size = 64 then
      match writeAt sec.data relocation.offset
          (encodeEndian o.endian 8 (toUnsigned 64 relocation.addend)) with
      | some newData =>
        (.ok (), { o with sections := (o.sections.set sectionId
            { sec with data := newData }) })
      | none =>
        (.error (.invalidOffset relocation.offset 64 sec.data.length), o)
    else
      (.error (.unimplementedAddend relocation), o)

/-- Appending to the target section's relocation list
(`src/write/mod.rs` line 684). -/
def pushRelocation (o : Object) (sectionId : SectionId) (r : Relocation) :
    Object :=
  let sec := o.sections.getD sectionId default
  { o with sections := (o.sections.set sectionId
      { sec with relocations := sec.relocations ++ [r] }) }

/-- `Object::add_relocation` (`src/write/mod.rs` lines 657-686), with
the per-format dispatch abstracted into `p`: translate the type,
classify the addend, materialize a non-zero implicit addend into the
section bytes (clearing the stored addend), and commit the relocation
to the section's list. -/
def add_relocation (p : RelocPolicy) (o : Object) (sectionId : SectionId)
    (relocation : Relocation) : Except Error Unit × Object :=
  match p.translate relocation with
  | .error e => (.error e, o)
  | .ok f =>
    let relocation := { relocation with flags := f }
    match p.adjustAddend relocation with
    | .error e => (.error e, o)
    | .ok implicit =>
      if implicit ∧ relocation.addend ≠ 0 then
        match o.write_relocation_addend p sectionId relocation with
        | (.ok _, o) => (.ok (), o.pushRelocation sectionId
            { relocation with addend := 0 })
        | (.error e, o) => (.error e, o)
      else
        (.ok (), o.pushRelocation sectionId relocation)

end Object

/-- The name a symbol is stored under: the caller's name, prefixed with
the mangling scheme's global prefix when one exists. -/
def mangled (m : Mangling) (s : Symbol) : Symbol :=
  match m.globalPrefixByte with
  | some p => { s with name := p :: s.name }
  | none => s

/-- The base the next append offset is computed from. -/
def base (s : Section) : Nat := if s.kind.is_bss then s.size else s.data.length

/-- The empty section `add_section` creates for a policy triple (with the
policy's default flags, which are always "unset" in the table). -/
def stdSecOfTriple (t : List Nat × List Nat × SectionKind) : Section :=
  { segment := t.1, name := t.2.1, kind := t.2.2, size := 0, align := 1,
    data := [], relocations := [], symbol := none, flags := .None }

/-- Issue a sequence of standard-section requests. -/
def processRoles (o : Object) : List StandardSection → Object
  | [] => o
  | r :: rest => processRoles (o.section_id r).2 rest

/-- The triples of the roles of `L` not yet registered in `o`. -/
def filteredTriples (o : Object) (L : List StandardSection) :
    Finset (List Nat × List Nat × SectionKind) :=
  ((L.filter (fun r => (lookupKey o.standard_sections r).isNone)).map
    (sectionTriple o.format)).toFinset

def wPolicy : RelocPolicy :=
  ⟨fun r => .ok r.flags, fun _ => .ok true, fun _ => .ok 32⟩

def wErrPolicy : RelocPolicy :=
  ⟨fun _ => .error (.other []), fun _ => .ok true, fun _ => .ok 32⟩

def wRelocSec : Section :=
  { segment := [], name := str ".text", kind := .Text, size := 8, align := 1,
    data := [0, 0, 0, 0, 0, 0, 0, 0], relocations := [], symbol := none,
    flags := .None }

def wElfObj : Object := Object.new .Elf .X86_64 .Little

def wMachObj : Object := Object.new .MachO .X86_64 .Little

def wXcoffObj : Object := Object.new .Xcoff .OtherArch .Big

def wRelocObj : Object := { wElfObj with sections := [wRelocSec] }

def wReloc : Relocation := ⟨2, 0, 5, 0⟩

def wReloc7 : Relocation := ⟨6, 0, 5, 0⟩

def wDataSec : Section :=
  { segment := [], name := str ".text", kind := .Text, size := 0, align := 1,
    data := [], relocations := [], symbol := none, flags := .None }

def wOps : List AppendOp := [.appendData [1, 2, 3] 4, .appendData [9] 8]

def wObjC3 : Object :=
  (((wElfObj.add_section [] (str ".text") .Text).2).section_symbol 0).2

def wSectionSym : Symbol :=
  { name := [], value := 0, size := 0, kind := .Section, scope := .Compilation,
    weak := false, sect := .Section 0, flags := .Other 7 }

def wTextSym : Symbol :=
  { name := str "foo", value := 0, size := 0, kind := .Text,
    scope := .Linkage, weak := false, sect := .Undefined, flags := .None }

def wTextSym2 : Symbol := { wTextSym with value := 4 }

/-! ### List helper lemmas -/

theorem getD_append_length {α : Type} (l : List α) (a d : α) :
    (l ++ [a]).getD l.length d = a := by
  simp [List.getD_eq_getElem?_getD, List.getElem?_append_right (Nat.le_refl _)]

theorem getD_append_lt {α : Type} (l l' : List α) (n : Nat) (d : α)
    (h : n < l.length) : (l ++ l').getD n d = l.getD n d := by
  simp [List.getD_eq_getElem?_getD, List.getElem?_append_left h]

theorem getD_set_self {α : Type} (l : List α) (i : Nat) (a d : α)
    (h : i < l.length) : (l.set i a).getD i d = a := by
  simp [List.getD_eq_getElem?_getD, List.getElem?_set_self h]

theorem getD_set_ne {α : Type} (l : List α) (i j : Nat) (a d : α)
    (h : i ≠ j) : (l.set i a).getD j d = l.getD j d := by
  simp [List.getD_eq_getElem?_getD, List.getElem?_set_ne h]

theorem set_append_length {α : Type} (l : List α) (a b : α) :
    (l ++ [a]).set l.length b = l ++ [b] := by
  induction l with
  | nil => rfl
  | cons x xs ih => simp [List.set, ih]

theorem leBytes_length (n v : Nat) : (leBytes n v).length = n := by
  induction n generalizing v with
  | zero => rfl
  | succ n ih => simp [leBytes, ih]

theorem encodeEndian_length (e : Endianness) (n v : Nat) :
    (encodeEndian e n v).length = n := by
  cases e <;> simp [encodeEndian, leBytes_length]

theorem writeAt_fits {data : List Nat} {off : Nat} {v d : List Nat}
    (h : writeAt data off v = some d) : off + v.length ≤ data.length := by
  by_cases hle : off + v.length ≤ data.length
  · exact hle
  · simp [writeAt, hle] at h

theorem writeAt_eq {data : List Nat} {off : Nat} {v d : List Nat}
    (h : writeAt data off v = some d) :
    d = data.take off ++ v ++ data.drop (off + v.length) := by
  have hle := writeAt_fits h
  simp [writeAt, hle] at h
  rw [List.append_assoc]
  exact h.symm

theorem writeAt_slice {data : List Nat} {off : Nat} {v d : List Nat}
    (h : writeAt data off v = some d) : (d.drop off).take v.length = v := by
  have hle := writeAt_fits h
  have hoff : off ≤ data.length := le_trans (Nat.le_add_right _ _) hle
  have hd := writeAt_eq h
  subst hd
  rw [List.append_assoc, List.drop_left' (by simp [List.length_take, Nat.min_eq_left hoff]),
    List.take_left]

theorem writeAt_oob {data : List Nat} {off : Nat} {v : List Nat}
    (h : data.length < off + v.length) : writeAt data off v = none := by
  simp [writeAt, Nat.not_le.mpr h]

-- equation lemmas for write_relocation_addend
theorem wra_size_error (p : RelocPolicy) (o : Object) (sid : SectionId)
    (r : Relocation) (e : Error) (hs : p.relocationSize r = .error e) :
    o.write_relocation_addend p sid r = (.error e, o) := by
  simp [Object.write_relocation_addend, hs]

theorem wra_size_unimpl (p : RelocPolicy) (o : Object) (sid : SectionId)
    (r : Relocation) (w : Nat) (hs : p.relocationSize r = .ok w)
    (h32 : w ≠ 32) (h64 : w ≠ 64) :
    o.write_relocation_addend p sid r = (.error (.unimplementedAddend r), o) := by
  simp [Object.write_relocation_addend, hs, h32, h64]

theorem wra_ok32 (p : RelocPolicy) (o : Object) (sid : SectionId)
    (r : Relocation) (d : List Nat) (hs : p.relocationSize r = .ok 32)
    (hw : writeAt (o.sections.getD sid default).data r.offset
        (encodeEndian o.endian 4 (toUnsigned 32 r.addend)) = some d) :
    o.write_relocation_addend p sid r =
      (.ok (), { o with sections := (o.sections.set sid
          { o.sections.getD sid default with data := d }) }) := by
  simp only [Object.write_relocation_addend, hs, hw]
  simp

theorem wra_oob32 (p : RelocPolicy) (o : Object) (sid : SectionId)
    (r : Relocation) (hs : p.relocationSize r = .ok 32)
    (hw : writeAt (o.sections.getD sid default).data r.offset
        (encodeEndian o.endian 4 (toUnsigned 32 r.addend)) = none) :
    o.write_relocation_addend p sid r =
      (.error (.invalidOffset r.offset 32 (o.sections.getD sid default).data.length), o) := by
  simp only [Object.write_relocation_addend, hs, hw]
  simp

-- equation lemmas for add_relocation
theorem ar_translate_error (p : RelocPolicy) (o : Object) (sid : SectionId)
    (r : Relocation) (e : Error) (ht : p.translate r = .error e) :
    Object.add_relocation p o sid r = (.error e, o) := by
  simp [Object.add_relocation, ht]

theorem ar_adjust_error (p : RelocPolicy) (o : Object) (sid : SectionId)
    (r : Relocation) (f : RelocationFlags) (e : Error)
    (ht : p.translate r = .ok f)
    (ha : p.adjustAddend { r with flags := f } = .error e) :
    Object.add_relocation p o sid r = (.error e, o) := by
  simp [Object.add_relocation, ht, ha]

theorem ar_explicit (p : RelocPolicy) (o : Object) (sid : SectionId)
    (r : Relocation) (f : RelocationFlags)
    (ht : p.translate r = .ok f)
    (ha : p.adjustAddend { r with flags := f } = .ok false) :
    Object.add_relocation p o sid r =
      (.ok (), o.pushRelocation sid { r with flags := f }) := by
  simp [Object.add_relocation, ht, ha]

theorem ar_implicit_zero (p : RelocPolicy) (o : Object) (sid : SectionId)
    (r : Relocation) (f : RelocationFlags)
    (ht : p.translate r = .ok f)
    (ha : p.adjustAddend { r with flags := f } = .ok true)
    (h0 : r.addend = 0) :
    Object.add_relocation p o sid r =
      (.ok (), o.pushRelocation sid { r with flags := f }) := by
  simp only [Object.add_relocation, ht, ha]
  simp [h0]

theorem ar_implicit_write (p : RelocPolicy) (o : Object) (sid : SectionId)
    (r : Relocation) (f : RelocationFlags)
    (ht : p.translate r = .ok f)
    (ha : p.adjustAddend { r with flags := f } = .ok true)
    (h0 : r.addend ≠ 0) :
    Object.add_relocation p o sid r =
      (match o.write_relocation_addend p sid { r with flags := f } with
       | (.ok _, o1) => (.ok (), o1.pushRelocation sid { r with flags := f, addend := 0 })
       | (.error e, o1) => (.error e, o1)) := by
  simp [Object.add_relocation, ht, ha, h0]

theorem getD_oob {α : Type} (l : List α) (n : Nat) (d : α)
    (h : l.length ≤ n) : l.getD n d = d := by
  simp [List.getD_eq_getElem?_getD, List.getElem?_eq_none h]

theorem wra_ok64 (p : RelocPolicy) (o : Object) (sid : SectionId)
    (r : Relocation) (d : List Nat) (hs : p.relocationSize r = .ok 64)
    (hw : writeAt (o.sections.getD sid default).data r.offset
        (encodeEndian o.endian 8 (toUnsigned 64 r.addend)) = some d) :
    o.write_relocation_addend p sid r =
      (.ok (), { o with sections := (o.sections.set sid
          { o.sections.getD sid default with data := d }) }) := by
  simp only [Object.write_relocation_addend, hs, hw]
  simp

theorem wra_oob64 (p : RelocPolicy) (o : Object) (sid : SectionId)
    (r : Relocation) (hs : p.relocationSize r = .ok 64)
    (hw : writeAt (o.sections.getD sid default).data r.offset
        (encodeEndian o.endian 8 (toUnsigned 64 r.addend)) = none) :
    o.write_relocation_addend p sid r =
      (.error (.invalidOffset r.offset 64 (o.sections.getD sid default).data.length), o) := by
  simp only [Object.write_relocation_addend, hs, hw]
  simp

theorem wra_error (p : RelocPolicy) (o : Object) (sid : SectionId)
    (r : Relocation) (e : Error) (o2 : Object)
    (h : o.write_relocation_addend p sid r = (.error e, o2)) : o2 = o := by
  rcases hs : p.relocationSize r with e1 | w
  · rw [wra_size_error p o sid r e1 hs] at h
    exact (Prod.mk.injEq _ _ _ _ ▸ h).2.symm
  · by_cases h32 : w = 32
    · subst h32
      rcases hw : writeAt (o.sections.getD sid default).data r.offset
          (encodeEndian o.endian 4 (toUnsigned 32 r.addend)) with _ | d
      · rw [wra_oob32 p o sid r hs hw] at h
        exact (Prod.mk.injEq _ _ _ _ ▸ h).2.symm
      · rw [wra_ok32 p o sid r d hs hw] at h
        simp at h
    · by_cases h64 : w = 64
      · subst h64
        rcases hw : writeAt (o.sections.getD sid default).data r.offset
            (encodeEndian o.endian 8 (toUnsigned 64 r.addend)) with _ | d
        · rw [wra_oob64 p o sid r hs hw] at h
          exact (Prod.mk.injEq _ _ _ _ ▸ h).2.symm
        · rw [wra_ok64 p o sid r d hs hw] at h
          simp at h
      · rw [wra_size_unimpl p o sid r w hs h32 h64] at h
        exact (Prod.mk.injEq _ _ _ _ ▸ h).2.symm

/-- C9: `add_relocation` is atomic on failure: whenever translation,
addend classification, or the implicit-addend write reports an error,
the whole object (sections, bytes, relocation lists, symbols) is exactly
what it was before the call. -/
theorem add_relocation_atomic_on_failure (p : RelocPolicy) (o : Object)
    (sid : SectionId) (r : Relocation) (e : Error)
    (he : (Object.add_relocation p o sid r).1 = Except.error e) :
    (Object.add_relocation p o sid r).2 = o := by
  rcases ht : p.translate r with e1 | f
  · rw [ar_translate_error p o sid r e1 ht]
  · rcases ha : p.adjustAddend { r with flags := f } with e2 | b
    · rw [ar_adjust_error p o sid r f e2 ht ha]
    · cases b
      · rw [ar_explicit p o sid r f ht ha] at he
        simp at he
      · by_cases h0 : r.addend = 0
        · rw [ar_implicit_zero p o sid r f ht ha h0] at he
          simp at he
        · rw [ar_implicit_write p o sid r f ht ha h0] at he ⊢
          rcases hw : o.write_relocation_addend p sid { r with flags := f } with
            ⟨res, o2⟩
          rw [hw] at he
          rcases res with e3 | ⟨⟩
          · exact wra_error p o sid { r with flags := f } e3 o2 hw
          · exact Except.noConfusion he

/-- C7: when an implicit-addend write targets a location outside the
section's byte buffer (offset plus addend width exceeds the buffer
length), `add_relocation` returns the `InvalidOffset` error carrying the
attempted offset, the width, and the section length, and leaves the
object — in particular the section bytes — untouched. -/
theorem add_relocation_invalid_offset_reported (p : RelocPolicy) (o : Object)
    (sid : SectionId) (r : Relocation) (f : RelocationFlags) (w : Nat)
    (ht : p.translate r = .ok f)
    (ha : p.adjustAddend { r with flags := f } = .ok true)
    (h0 : r.addend ≠ 0)
    (hs : p.relocationSize { r with flags := f } = .ok w)
    (hw : w = 32 ∨ w = 64)
    (hoob : (o.sections.getD sid default).data.length < r.offset + w / 8) :
    (Object.add_relocation p o sid r).1 =
      .error (.invalidOffset r.offset w (o.sections.getD sid default).data.length)
    ∧ (Object.add_relocation p o sid r).2 = o := by
  rw [ar_implicit_write p o sid r f ht ha h0]
  rcases hw with rfl | rfl
  · have hwn : writeAt (o.sections.getD sid default).data r.offset
        (encodeEndian o.endian 4 (toUnsigned 32 r.addend)) = none := by
      apply writeAt_oob
      rw [encodeEndian_length]
      exact hoob
    rw [wra_oob32 p o sid { r with flags := f } hs hwn]
    exact ⟨rfl, rfl⟩
  · have hwn : writeAt (o.sections.getD sid default).data r.offset
        (encodeEndian o.endian 8 (toUnsigned 64 r.addend)) = none := by
      apply writeAt_oob
      rw [encodeEndian_length]
      exact hoob
    rw [wra_oob64 p o sid { r with flags := f } hs hwn]
    exact ⟨rfl, rfl⟩

/-- C1: for a relocation whose translated type the active format
classifies as implicit-addend and whose addend is non-zero, if
`add_relocation` returns `Ok` then the addend width is 32 or 64 bits, the
relocation appended to the section's relocation list has addend exactly
zero, and the section bytes at the relocation's offset are the original
addend encoded in the object's declared byte order at that width. -/
theorem add_relocation_implicit_materializes (p : RelocPolicy) (o : Object)
    (sid : SectionId) (r : Relocation) (f : RelocationFlags)
    (ht : p.translate r = .ok f)
    (ha : p.adjustAddend { r with flags := f } = .ok true)
    (h0 : r.addend ≠ 0)
    (hok : (Object.add_relocation p o sid r).1 = .ok ()) :
    ∃ w, p.relocationSize { r with flags := f } = .ok w ∧ (w = 32 ∨ w = 64) ∧
      ((Object.add_relocation p o sid r).2.sections.getD sid default).relocations =
        (o.sections.getD sid default).relocations ++ [{ r with flags := f, addend := 0 }]
      ∧ (((Object.add_relocation p o sid r).2.sections.getD sid default).data.drop
            r.offset).take (w / 8) =
          encodeEndian o.endian (w / 8) (toUnsigned w r.addend) := by
  rw [ar_implicit_write p o sid r f ht ha h0] at hok ⊢
  rcases hs : p.relocationSize ({ r with flags := f } : Relocation) with e1 | w
  · rw [wra_size_error p o sid { r with flags := f } e1 hs] at hok
    exact Except.noConfusion hok
  · by_cases h32 : w = 32
    · subst h32
      rcases hwr : writeAt (o.sections.getD sid default).data r.offset
          (encodeEndian o.endian 4 (toUnsigned 32 r.addend)) with _ | d
      · rw [wra_oob32 p o sid { r with flags := f } hs hwr] at hok
        exact Except.noConfusion hok
      · rw [wra_ok32 p o sid { r with flags := f } d hs hwr]
        have hfit := writeAt_fits hwr
        rw [encodeEndian_length] at hfit
        have hsidlt : sid < o.sections.length := by
          by_contra hge
          push_neg at hge
          rw [getD_oob _ _ _ hge] at hfit
          have hz : (default : Section).data.length = 0 := rfl
          omega
        have hslice := writeAt_slice hwr
        rw [encodeEndian_length] at hslice
        refine ⟨32, rfl, Or.inl rfl, ?_, ?_⟩
        · simp only [Object.pushRelocation]
          rw [getD_set_self _ _ _ _ (by simpa using hsidlt)]
          rw [getD_set_self _ _ _ _ (by simpa using hsidlt)]
        · simp only [Object.pushRelocation]
          rw [getD_set_self _ _ _ _ (by simpa using hsidlt)]
          rw [getD_set_self _ _ _ _ (by simpa using hsidlt)]
          simpa using hslice
    · by_cases h64 : w = 64
      · subst h64
        rcases hwr : writeAt (o.sections.getD sid default).data r.offset
            (encodeEndian o.endian 8 (toUnsigned 64 r.addend)) with _ | d
        · rw [wra_oob64 p o sid { r with flags := f } hs hwr] at hok
          exact Except.noConfusion hok
        · rw [wra_ok64 p o sid { r with flags := f } d hs hwr]
          have hfit := writeAt_fits hwr
          rw [encodeEndian_length] at hfit
          have hsidlt : sid < o.sections.length := by
            by_contra hge
            push_neg at hge
            rw [getD_oob _ _ _ hge] at hfit
            have hz : (default : Section).data.length = 0 := rfl
            omega
          have hslice := writeAt_slice hwr
          rw [encodeEndian_length] at hslice
          refine ⟨64, rfl, Or.inr rfl, ?_, ?_⟩
          · simp only [Object.pushRelocation]
            rw [getD_set_self _ _ _ _ (by simpa using hsidlt)]
            rw [getD_set_self _ _ _ _ (by simpa using hsidlt)]
          · simp only [Object.pushRelocation]
            rw [getD_set_self _ _ _ _ (by simpa using hsidlt)]
            rw [getD_set_self _ _ _ _ (by simpa using hsidlt)]
            simpa using hslice
      · rw [wra_size_unimpl p o sid { r with flags := f } w hs h32 h64] at hok
        exact Except.noConfusion hok

/-- Equation for `add_symbol` on a named linkable symbol. -/
theorem add_symbol_linkable_eq (o : Object) (sym : Symbol)
    (hname : sym.name ≠ [])
    (hkind : sym.kind = SymbolKind.Text ∨ sym.kind = SymbolKind.Data ∨
      sym.kind = SymbolKind.Tls) :
    o.add_symbol sym = (o.symbols.length,
      { o with symbols := o.symbols ++ [mangled o.mangling sym],
               symbol_map := (sym.name, o.symbols.length) :: o.symbol_map }) := by
  have hks : ¬sym.kind = SymbolKind.Section := by
    rcases hkind with h | h | h <;> simp [h]
  simp only [Object.add_symbol]
  rw [if_neg hks, if_pos (show sym.name ≠ [] ∧ (sym.kind = SymbolKind.Text ∨
    sym.kind = SymbolKind.Data ∨ sym.kind = SymbolKind.Tls) from ⟨hname, hkind⟩)]
  cases hp : o.mangling.globalPrefixByte <;> simp [hp, mangled, Object.add_raw_symbol]

/-- C4: for a symbol with a non-empty name and kind text/data/tls, the
stored name is the caller's name prefixed with the mangling scheme's
global prefix (when one exists), and `symbol_id` queried with the
original unmangled name returns the `SymbolId` that `add_symbol`
returned, whether or not the format has a prefix. -/
theorem add_symbol_mangles_and_indexes (o : Object) (sym : Symbol)
    (hname : sym.name ≠ [])
    (hkind : sym.kind = SymbolKind.Text ∨ sym.kind = SymbolKind.Data ∨
      sym.kind = SymbolKind.Tls) :
    (o.add_symbol sym).1 = o.symbols.length
    ∧ ((o.add_symbol sym).2.symbols.getD (o.add_symbol sym).1 default) =
        mangled o.mangling sym
    ∧ (o.add_symbol sym).2.symbol_id sym.name = some (o.add_symbol sym).1 := by
  rw [add_symbol_linkable_eq o sym hname hkind]
  refine ⟨rfl, ?_, ?_⟩
  · exact getD_append_length _ _ _
  · simp [Object.symbol_id, lookupKey]

/-- C10: adding two symbols with the same non-empty name and a linkable
kind keeps both entries in the symbol table under distinct `SymbolId`s,
and a `symbol_id` lookup for that name afterwards returns the id of the
most recently added symbol (the name index silently overwrites). -/
theorem add_symbol_duplicate_names (o : Object) (s1 s2 : Symbol)
    (hn1 : s1.name ≠ []) (heq : s2.name = s1.name)
    (hk1 : s1.kind = SymbolKind.Text ∨ s1.kind = SymbolKind.Data ∨
      s1.kind = SymbolKind.Tls)
    (hk2 : s2.kind = SymbolKind.Text ∨ s2.kind = SymbolKind.Data ∨
      s2.kind = SymbolKind.Tls) :
    ((o.add_symbol s1).2.add_symbol s2).1 ≠ (o.add_symbol s1).1
    ∧ ((o.add_symbol s1).2.add_symbol s2).2.symbols.length = o.symbols.length + 2
    ∧ (((o.add_symbol s1).2.add_symbol s2).2.symbols.getD (o.add_symbol s1).1
        default) = mangled o.mangling s1
    ∧ (((o.add_symbol s1).2.add_symbol s2).2.symbols.getD
        ((o.add_symbol s1).2.add_symbol s2).1 default) = mangled o.mangling s2
    ∧ ((o.add_symbol s1).2.add_symbol s2).2.symbol_id s1.name =
        some ((o.add_symbol s1).2.add_symbol s2).1 := by
  have hn2 : s2.name ≠ [] := by rw [heq]; exact hn1
  rw [add_symbol_linkable_eq o s1 hn1 hk1]
  rw [add_symbol_linkable_eq _ s2 hn2 hk2]
  refine ⟨?_, by simp, ?_, ?_, ?_⟩
  · show (o.symbols ++ [mangled o.mangling s1]).length ≠ o.symbols.length
    simp
  · have h3 : ((o.symbols ++ [mangled o.mangling s1]) ++
        [mangled o.mangling s2]).getD o.symbols.length default =
        mangled o.mangling s1 := by
      rw [getD_append_lt (o.symbols ++ [mangled o.mangling s1])
        [mangled o.mangling s2] o.symbols.length default (by simp)]
      exact getD_append_length o.symbols (mangled o.mangling s1) default
    exact h3
  · exact getD_append_length (o.symbols ++ [mangled o.mangling s1])
      (mangled o.mangling s2) default
  · simp [Object.symbol_id, lookupKey, heq]

/-- C3: adding a section-kind symbol for a section that already has a
section symbol returns the existing `SymbolId`, leaves the symbol-table
length unchanged, and overwrites the existing symbol's flags if and only
if the supplied flags are not `SymbolFlags::None` (all other fields are
kept), so at most one section symbol exists per section. -/
theorem add_symbol_section_updates_existing (o : Object) (sym : Symbol)
    (sid : SectionId) (existing : SymbolId)
    (hkind : sym.kind = SymbolKind.Section)
    (hsect : sym.sect = SymbolSection.Section sid)
    (hex : (o.sections.getD sid default).symbol = some existing)
    (hlt : existing < o.symbols.length) :
    (o.add_symbol sym).1 = existing
    ∧ (o.add_symbol sym).2.symbols.length = o.symbols.length
    ∧ ((o.add_symbol sym).2.symbols.getD existing default) =
        { o.symbols.getD existing default with
          flags := if sym.flags ≠ SymbolFlags.None then sym.flags
                   else (o.symbols.getD existing default).flags } := by
  have hss : o.section_symbol sid = (existing, o) := by
    simp only [Object.section_symbol, hex]
  by_cases hf : sym.flags = SymbolFlags.None
  · simp [Object.add_symbol, hkind, hsect, SymbolSection.id, hss, hf]
  · simp [Object.add_symbol, hkind, hsect, SymbolSection.id, hss, hf,
      List.getElem?_set_self hlt]

theorem pad_spec (len k : Nat) :
    len ≤ (if len &&& (2 ^ k - 1) ≠ 0 then
        len + (2 ^ k - (len &&& (2 ^ k - 1))) else len)
    ∧ (if len &&& (2 ^ k - 1) ≠ 0 then
        len + (2 ^ k - (len &&& (2 ^ k - 1))) else len) % 2 ^ k = 0 := by
  rw [Nat.and_pow_two_sub_one_eq_mod]
  by_cases h : len % 2 ^ k = 0
  · simp [h]
  · rw [if_pos h]
    have hpos : 0 < 2 ^ k := Nat.pos_pow_of_pos k (by decide)
    have hlt : len % 2 ^ k < 2 ^ k := Nat.mod_lt _ hpos
    have hd := Nat.div_add_mod len (2 ^ k)
    refine ⟨by omega, ?_⟩
    have he : len + (2 ^ k - len % 2 ^ k) = 2 ^ k * (len / 2 ^ k + 1) := by
      rw [Nat.mul_add, Nat.mul_one]
      omega
    rw [he, Nat.mul_mod_right]

theorem append_data_spec (s : Section) (bytes : List Nat) (k : Nat) :
    s.data.length ≤ (s.append_data bytes (2 ^ k)).2
    ∧ (s.append_data bytes (2 ^ k)).2 % 2 ^ k = 0
    ∧ (s.append_data bytes (2 ^ k)).1.data.length =
        (s.append_data bytes (2 ^ k)).2 + bytes.length
    ∧ (s.append_data bytes (2 ^ k)).1.align = max s.align (2 ^ k)
    ∧ (s.append_data bytes (2 ^ k)).1.kind = s.kind := by
  obtain ⟨hle, hmod⟩ := pad_spec s.data.length k
  by_cases ha : s.align < 2 ^ k
  · have hmax : max s.align (2 ^ k) = 2 ^ k := Nat.max_eq_right (Nat.le_of_lt ha)
    by_cases hp : s.data.length % 2 ^ k = 0 <;>
      (simp [Section.append_data, ha, hp, hmax] at hle hmod ⊢; try omega)
  · have hmax : max s.align (2 ^ k) = s.align := Nat.max_eq_left (Nat.not_lt.mp ha)
    by_cases hp : s.data.length % 2 ^ k = 0 <;>
      (simp [Section.append_data, ha, hp, hmax] at hle hmod ⊢; try omega)

theorem append_bss_spec (s : Section) (size k : Nat) :
    s.size ≤ (s.append_bss size (2 ^ k)).2
    ∧ (s.append_bss size (2 ^ k)).2 % 2 ^ k = 0
    ∧ (s.append_bss size (2 ^ k)).1.size = (s.append_bss size (2 ^ k)).2 + size
    ∧ (s.append_bss size (2 ^ k)).1.align = max s.align (2 ^ k)
    ∧ (s.append_bss size (2 ^ k)).1.kind = s.kind := by
  obtain ⟨hle, hmod⟩ := pad_spec s.size k
  by_cases ha : s.align < 2 ^ k
  · have hmax : max s.align (2 ^ k) = 2 ^ k := Nat.max_eq_right (Nat.le_of_lt ha)
    by_cases hp : s.size % 2 ^ k = 0 <;>
      (simp [Section.append_bss, ha, hp, hmax] at hle hmod ⊢; try omega)
  · have hmax : max s.align (2 ^ k) = s.align := Nat.max_eq_left (Nat.not_lt.mp ha)
    by_cases hp : s.size % 2 ^ k = 0 <;>
      (simp [Section.append_bss, ha, hp, hmax] at hle hmod ⊢; try omega)

/-- One-step spec for an append call matching the section's bss-ness. -/
theorem append_step (s : Section) (op : AppendOp)
    (hk : ∃ k, op.align = 2 ^ k) (hm : op.matchesKind s.kind) :
    base s ≤ (op.apply s).2
    ∧ (op.apply s).2 ≤ base (op.apply s).1
    ∧ (op.apply s).2 % op.align = 0
    ∧ (op.apply s).1.align = max s.align op.align
    ∧ (op.apply s).1.kind = s.kind := by
  obtain ⟨k, hk⟩ := hk
  cases op with
  | appendData bytes a =>
    simp only [AppendOp.align] at hk
    subst hk
    obtain ⟨h1, h2, h3, h4, h5⟩ := append_data_spec s bytes k
    have hb : s.kind.is_bss = false := hm
    have hbs : base s = s.data.length := by simp [base, hb]
    have hbr : base (AppendOp.apply s (AppendOp.appendData bytes (2 ^ k))).1 =
        (s.append_data bytes (2 ^ k)).1.data.length := by
      have : (AppendOp.apply s (AppendOp.appendData bytes (2 ^ k))).1.kind =
          s.kind := h5
      simp only [base, this, hb, Bool.false_eq_true, if_false]
      rfl
    refine ⟨?_, ?_, h2, h4, h5⟩
    · rw [hbs]; exact h1
    · rw [hbr]
      show (s.append_data bytes (2 ^ k)).2 ≤
        (s.append_data bytes (2 ^ k)).1.data.length
      omega
  | appendBss size a =>
    simp only [AppendOp.align] at hk
    subst hk
    obtain ⟨h1, h2, h3, h4, h5⟩ := append_bss_spec s size k
    have hb : s.kind.is_bss = true := hm
    have hbs : base s = s.size := by simp [base, hb]
    have hbr : base (AppendOp.apply s (AppendOp.appendBss size (2 ^ k))).1 =
        (s.append_bss size (2 ^ k)).1.size := by
      have : (AppendOp.apply s (AppendOp.appendBss size (2 ^ k))).1.kind =
          s.kind := h5
      simp only [base, this, hb, if_true]
      rfl
    refine ⟨?_, ?_, h2, h4, h5⟩
    · rw [hbs]; exact h1
    · rw [hbr]
      show (s.append_bss size (2 ^ k)).2 ≤ (s.append_bss size (2 ^ k)).1.size
      omega

/-- Invariant for a sequence of appends. -/
theorem applyOps_spec (ops : List AppendOp) (s : Section)
    (hpow : ∀ op ∈ ops, ∃ k, AppendOp.align op = 2 ^ k)
    (hmatch : ∀ op ∈ ops, AppendOp.matchesKind s.kind op) :
    List.Chain' (· ≤ ·) (applyOps s ops).2
    ∧ (∀ off ∈ (applyOps s ops).2, base s ≤ off)
    ∧ (∀ pr ∈ (applyOps s ops).2.zip (ops.map AppendOp.align), pr.1 % pr.2 = 0)
    ∧ (applyOps s ops).1.align =
        ops.foldl (fun acc op => max acc (AppendOp.align op)) s.align
    ∧ (applyOps s ops).1.kind = s.kind := by
  induction ops generalizing s with
  | nil => simp [applyOps]
  | cons op ops ih =>
    obtain ⟨h1, h2, h3, h4, h5⟩ := append_step s op
      (hpow op (by simp)) (hmatch op (by simp))
    obtain ⟨ih1, ih2, ih3, ih4, ih5⟩ := ih (op.apply s).1
      (fun o ho => hpow o (by simp [ho]))
      (fun o ho => by rw [h5]; exact hmatch o (by simp [ho]))
    simp only [applyOps]
    refine ⟨?_, ?_, ?_, ?_, ?_⟩
    · rw [List.chain'_cons']
      refine ⟨?_, ih1⟩
      intro y hy
      have hmem : y ∈ (applyOps (op.apply s).1 ops).2 :=
        List.mem_of_mem_head? hy
      exact le_trans h2 (ih2 y hmem)
    · intro off hoff
      rcases List.mem_cons.mp hoff with rfl | hmem
      · exact h1
      · exact le_trans h1 (le_trans h2 (ih2 off hmem))
    · intro pr hpr
      rcases List.mem_cons.mp (by simpa using hpr) with rfl | hmem
      · exact h3
      · exact ih3 pr hmem
    · simp only [List.foldl_cons]
      rw [ih4, h4]
    · rw [ih5, h5]

theorem mem_standardSection_all (ss : StandardSection) :
    ss ∈ StandardSection.all := by
  cases ss <;> simp [StandardSection.all]

/-- Lookup after the registration loop of `add_section`. -/
theorem lookupKey_registerStandard (format : BinaryFormat)
    (triple : List Nat × List Nat × SectionKind) (id : SectionId)
    (roles : List StandardSection) (m : List (StandardSection × SectionId))
    (ss : StandardSection) :
    lookupKey (Object.registerStandard format triple id roles m) ss =
      match lookupKey m ss with
      | some v => some v
      | none =>
        if ss ∈ roles ∧ sectionTriple format ss = triple then some id
        else none := by
  induction roles generalizing m with
  | nil =>
    simp only [Object.registerStandard]
    rcases h : lookupKey m ss with _ | v <;> simp
  | cons r rest ih =>
    simp only [Object.registerStandard]
    by_cases hc : (lookupKey m r).isNone ∧ sectionTriple format r = triple
    · rw [if_pos hc]
      rw [ih]
      by_cases hsr : ss = r
      · subst hsr
        have hm : lookupKey m ss = none := Option.isNone_iff_eq_none.mp hc.1
        simp [lookupKey, hm, hc.2]
      · have hlk : lookupKey ((r, id) :: m) ss = lookupKey m ss := by
          simp [lookupKey, hsr]
        rw [hlk]
        rcases hm : lookupKey m ss with _ | v
        · simp [List.mem_cons, hsr]
        · simp
    · rw [if_neg hc]
      rw [ih]
      rcases hm : lookupKey m ss with _ | v
      · by_cases hsr : ss = r
        · subst hsr
          rw [hm] at hc
          have : ¬sectionTriple format ss = triple := by
            simpa [Option.isNone_iff_eq_none] using hc
          simp [List.mem_cons, this]
        · simp [List.mem_cons, hsr]
      · simp

/-- Lookup in `standard_sections` after `add_section`: roles already
registered are untouched; unregistered roles whose policy triple matches
the new section point at it; nothing else changes. -/
theorem add_section_standard_lookup (o : Object) (segment name : List Nat)
    (kind : SectionKind) (ss : StandardSection) :
    lookupKey ((o.add_section segment name kind).2).standard_sections ss =
      match lookupKey o.standard_sections ss with
      | some v => some v
      | none =>
        if sectionTriple o.format ss = (segment, name, kind) then
          some (o.add_section segment name kind).1
        else none := by
  simp only [Object.add_section]
  rw [lookupKey_registerStandard]
  rcases hm : lookupKey o.standard_sections ss with _ | v
  · simp [mem_standardSection_all]
  · simp

theorem sectionInfo_flags (f : BinaryFormat) (r : StandardSection) :
    (sectionInfo f r).2.2.2 = SectionFlags.None := by
  cases f <;> cases r <;> rfl

theorem section_id_cached (o : Object) (r : StandardSection) (id : SectionId)
    (h : lookupKey o.standard_sections r = some id) :
    o.section_id r = (id, o) := by
  simp [Object.section_id, h]

theorem section_id_uncached (o : Object) (r : StandardSection)
    (h : lookupKey o.standard_sections r = none) :
    (o.section_id r).1 = o.sections.length
    ∧ (o.section_id r).2.sections =
        o.sections ++ [stdSecOfTriple (sectionTriple o.format r)]
    ∧ (o.section_id r).2.format = o.format
    ∧ ∀ ss, lookupKey (o.section_id r).2.standard_sections ss =
        (match lookupKey o.standard_sections ss with
         | some v => some v
         | none =>
           if sectionTriple o.format ss = sectionTriple o.format r then
             some o.sections.length
           else none) := by
  simp only [Object.section_id, h, Object.add_section, Object.setSectionFlags]
  refine ⟨trivial, ?_, trivial, ?_⟩
  · rw [getD_append_length, set_append_length]
    rw [sectionInfo_flags]
    rfl
  · intro ss
    rw [lookupKey_registerStandard]
    rcases hm : lookupKey o.standard_sections ss with _ | v
    · simp [mem_standardSection_all, sectionTriple]
    · simp

theorem processRoles_sections (L : List StandardSection) (o : Object) :
    ((processRoles o L).sections : Multiset Section) =
      (o.sections : Multiset Section) +
        Multiset.map stdSecOfTriple (filteredTriples o L).val := by
  induction L generalizing o with
  | nil => simp [processRoles, filteredTriples]
  | cons r L ih =>
    simp only [processRoles]
    rcases hm : lookupKey o.standard_sections r with _ | id
    · obtain ⟨h1, h2, h3, h4⟩ := section_id_uncached o r hm
      rw [ih]
      have hsec : ((o.section_id r).2.sections : Multiset Section) =
          (o.sections : Multiset Section) +
            {stdSecOfTriple (sectionTriple o.format r)} := by
        rw [h2, ← Multiset.coe_add, ← Multiset.coe_singleton]
      have hnone : ∀ x,
          (lookupKey (o.section_id r).2.standard_sections x).isNone = true ↔
            (lookupKey o.standard_sections x = none ∧
              sectionTriple o.format x ≠ sectionTriple o.format r) := by
        intro x
        rw [h4 x]
        rcases hx : lookupKey o.standard_sections x with _ | v
        · by_cases ht : sectionTriple o.format x = sectionTriple o.format r <;>
            simp [ht]
        · simp
      have hfilt : filteredTriples (o.section_id r).2 L =
          (filteredTriples o (r :: L)).erase (sectionTriple o.format r) := by
        ext b
        simp only [filteredTriples, h3, List.mem_toFinset, List.mem_map,
          List.mem_filter, Finset.mem_erase]
        constructor
        · rintro ⟨x, ⟨hxL, hx1⟩, rfl⟩
          obtain ⟨hx0, hxt⟩ := (hnone x).mp hx1
          exact ⟨hxt, x, ⟨List.mem_cons_of_mem r hxL, by simp [hx0]⟩, rfl⟩
        · rintro ⟨hbt, x, ⟨hxrl, hx0⟩, rfl⟩
          rcases List.mem_cons.mp hxrl with rfl | hxL
          · exact absurd rfl hbt
          · exact ⟨x, ⟨hxL, (hnone x).mpr
              ⟨by simpa using hx0, hbt⟩⟩, rfl⟩
      rw [hsec, hfilt]
      have hTmem : sectionTriple o.format r ∈ filteredTriples o (r :: L) := by
        simp only [filteredTriples, List.mem_toFinset, List.mem_map]
        exact ⟨r, by simp [List.mem_filter, hm], rfl⟩
      have hval : (filteredTriples o (r :: L)).val =
          sectionTriple o.format r ::ₘ
            ((filteredTriples o (r :: L)).erase (sectionTriple o.format r)).val := by
        conv_lhs => rw [← Finset.insert_erase hTmem]
        rw [Finset.insert_val_of_not_mem (Finset.not_mem_erase _ _)]
      rw [hval, Multiset.map_cons]
      rw [add_assoc, Multiset.singleton_add]
    · rw [section_id_cached o r id hm]
      rw [ih]
      have hskip : filteredTriples o (r :: L) = filteredTriples o L := by
        simp only [filteredTriples, List.filter_cons]
        rw [if_neg (by simp [hm])]
      rw [hskip]

theorem filteredTriples_perm (o : Object) {L L' : List StandardSection}
    (hp : L.Perm L') : filteredTriples o L = filteredTriples o L' := by
  ext b
  simp only [filteredTriples, List.mem_toFinset, List.mem_map, List.mem_filter]
  constructor <;> rintro ⟨x, ⟨hxl, hx⟩, rfl⟩
  · exact ⟨x, ⟨hp.mem_iff.mp hxl, hx⟩, rfl⟩
  · exact ⟨x, ⟨hp.mem_iff.mpr hxl, hx⟩, rfl⟩

/-- C5: `section_id` is idempotent per standard-section role (a second
call returns the same id and leaves the object unchanged; the first call
for an unregistered role creates a section from the policy tuple), and
the multiset of concrete sections produced by a sequence of role
requests is invariant under permuting the requests. -/
theorem section_id_idempotent_order_independent (o : Object)
    (r : StandardSection) (L L' : List StandardSection) (hperm : L.Perm L') :
    ((o.section_id r).2.section_id r =
      ((o.section_id r).1, (o.section_id r).2))
    ∧ (lookupKey o.standard_sections r = none →
        (o.section_id r).1 = o.sections.length ∧
        (o.section_id r).2.sections =
          o.sections ++ [stdSecOfTriple (sectionTriple o.format r)])
    ∧ (((processRoles o L).sections : Multiset Section) =
        ((processRoles o L').sections : Multiset Section)) := by
  refine ⟨?_, ?_, ?_⟩
  · rcases hm : lookupKey o.standard_sections r with _ | id
    · obtain ⟨h1, _, _, h4⟩ := section_id_uncached o r hm
      have hl : lookupKey (o.section_id r).2.standard_sections r =
          some o.sections.length := by
        rw [h4 r, hm]
        simp
      rw [section_id_cached _ r _ hl, h1]
    · rw [section_id_cached o r id hm]
      exact section_id_cached o r id hm
  · intro hm
    obtain ⟨h1, h2, _, _⟩ := section_id_uncached o r hm
    exact ⟨h1, h2⟩
  · rw [processRoles_sections L o, processRoles_sections L' o,
      filteredTriples_perm o hperm]

/-- C6: after `add_section`, the standard-sections map binds exactly
those roles whose policy triple equals the new section's
(segment, name, kind) and that were unregistered before the call, to the
new `SectionId`; already-registered roles keep their binding, and roles
whose triple does not match gain no entry. -/
theorem add_section_registers_matching_roles (o : Object)
    (segment name : List Nat) (kind : SectionKind) (ss : StandardSection) :
    lookupKey ((o.add_section segment name kind).2).standard_sections ss =
      (match lookupKey o.standard_sections ss with
       | some v => some v
       | none =>
         if sectionTriple o.format ss = (segment, name, kind) then
           some (o.add_section segment name kind).1
         else none) :=
  add_section_standard_lookup o segment name kind ss

/-- C8 counterexample: on Mach-O with the subsections-via-symbols
switch unset, `add_subsection` still returns the parent standard section
and creates no new section — refuting, at a concrete input, the claim
that the switch toggles `add_subsection` between returning the parent
and synthesizing a new subsection. -/
theorem add_subsection_switch_counterexample :
    ((Object.new .MachO .X86_64 .Little).section_id
        .Text).2.macho_subsections_via_symbols = false
    ∧ ((Object.new .MachO .X86_64 .Little).section_id .Text).2.add_subsection
          .Text (str "f") =
        some (((Object.new .MachO .X86_64 .Little).section_id .Text).1,
          ((Object.new .MachO .X86_64 .Little).section_id .Text).2) :=
  ⟨rfl, rfl⟩

theorem add_section_sections_eq (o : Object) (seg nm : List Nat)
    (k : SectionKind) :
    (o.add_section seg nm k).2.sections = o.sections ++
      [({ segment := seg, name := nm, kind := k, size := 0, align := 1,
          data := [], relocations := [], symbol := none,
          flags := .None } : Section)] := rfl

/-- The else-branch equation of `add_subsection` when subsection-name
synthesis is defined for the format. -/
theorem add_subsection_else (o : Object) (s : StandardSection) (nm : List Nat)
    (hsvs : o.has_subsections_via_symbols = false) (nm' : List Nat)
    (hname : subsectionName o.format (sectionInfo o.format s).2.1 nm =
      some nm') :
    o.add_subsection s nm = some ((o.add_section (sectionInfo o.format s).1
        nm' (sectionInfo o.format s).2.2.1).1,
      (o.add_section (sectionInfo o.format s).1 nm'
        (sectionInfo o.format s).2.2.1).2.setSectionFlags
        (o.add_section (sectionInfo o.format s).1 nm'
          (sectionInfo o.format s).2.2.1).1 (sectionInfo o.format s).2.2.2) := by
  unfold Object.add_subsection
  rw [hsvs]
  simp only [Bool.false_eq_true, if_false, Object.subsection_info, hname]

/-- The else-branch of `add_subsection` propagates the `unimplemented!`
panic when the format has no subsection-name synthesis. -/
theorem add_subsection_panics (o : Object) (s : StandardSection)
    (nm : List Nat) (hsvs : o.has_subsections_via_symbols = false)
    (hname : subsectionName o.format (sectionInfo o.format s).2.1 nm = none) :
    o.add_subsection s nm = none := by
  unfold Object.add_subsection
  rw [hsvs]
  simp only [Bool.false_eq_true, if_false, Object.subsection_info, hname]

/-- C8 amended: on a format that supports subsections-via-symbols
(Mach-O), `add_subsection` always returns the parent standard section
regardless of the switch, and the switch only sets the Mach-O
subsections-via-symbols file flag; on other formats the switch is a
no-op; on COFF and ELF `add_subsection` synthesizes a per-format
subsection name and creates a new concrete section bearing it; on XCOFF,
where subsection-name synthesis is unimplemented, `add_subsection`
panics (`unimplemented!`, modelled as `none`) instead of creating a
section. -/
theorem add_subsection_amended (o : Object) (s : StandardSection)
    (nm : List Nat) :
    (o.format = BinaryFormat.MachO →
      o.add_subsection s nm = some (o.section_id s) ∧
      o.set_subsections_via_symbols =
        { o with macho_subsections_via_symbols := true })
    ∧ (o.format ≠ BinaryFormat.MachO →
      o.set_subsections_via_symbols = o)
    ∧ ((o.format = BinaryFormat.Coff ∨ o.format = BinaryFormat.Elf) →
      ∃ o', o.add_subsection s nm = some (o.sections.length, o')
        ∧ o'.sections.length = o.sections.length + 1
        ∧ subsectionName o.format (sectionInfo o.format s).2.1 nm =
            some ((o'.sections.getD o.sections.length default).name))
    ∧ (o.format = BinaryFormat.Xcoff → o.add_subsection s nm = none) := by
  refine ⟨?_, ?_, ?_, ?_⟩
  · intro hfmt
    constructor
    · simp [Object.add_subsection, Object.has_subsections_via_symbols, hfmt]
    · simp [Object.set_subsections_via_symbols, hfmt]
  · intro hfmt
    simp [Object.set_subsections_via_symbols, hfmt]
  · intro hf
    have hsvs : o.has_subsections_via_symbols = false := by
      rcases hf with hf | hf <;>
        simp [Object.has_subsections_via_symbols, hf]
    obtain ⟨nm', hname⟩ : ∃ nm',
        subsectionName o.format (sectionInfo o.format s).2.1 nm = some nm' := by
      rcases hf with hf | hf <;> rw [hf] <;> exact ⟨_, rfl⟩
    refine ⟨(o.add_section (sectionInfo o.format s).1 nm'
        (sectionInfo o.format s).2.2.1).2.setSectionFlags
        (o.add_section (sectionInfo o.format s).1 nm'
          (sectionInfo o.format s).2.2.1).1 (sectionInfo o.format s).2.2.2,
      ?_, ?_, ?_⟩
    · rw [add_subsection_else o s nm hsvs nm' hname]
      rfl
    · simp [Object.setSectionFlags, add_section_sections_eq]
    · rw [hname]
      simp only [Object.setSectionFlags, add_section_sections_eq]
      have hfst : (o.add_section (sectionInfo o.format s).1 nm'
          (sectionInfo o.format s).2.2.1).1 = o.sections.length := rfl
      rw [hfst, getD_append_length, set_append_length, getD_append_length]
  · intro hfx
    have hsvs : o.has_subsections_via_symbols = false := by
      simp [Object.has_subsections_via_symbols, hfx]
    exact add_subsection_panics o s nm hsvs (by rw [hfx]; rfl)

/-- C2: under power-of-two alignments (and appends matching the
section's bss-ness, the `debug_assert!` precondition), the offsets
returned by successive `append_data`/`append_bss` calls are
non-decreasing, each returned offset is a multiple of the alignment
passed to that call, and the final alignment is the max of the initial
alignment and every alignment passed. -/
theorem append_offsets_monotone_aligned (s : Section) (ops : List AppendOp)
    (hpow : ∀ op ∈ ops, ∃ k, AppendOp.align op = 2 ^ k)
    (hmatch : ∀ op ∈ ops, AppendOp.matchesKind s.kind op) :
    List.Chain' (· ≤ ·) (applyOps s ops).2
    ∧ (∀ pr ∈ (applyOps s ops).2.zip (ops.map AppendOp.align),
        pr.1 % pr.2 = 0)
    ∧ (applyOps s ops).1.align =
        ops.foldl (fun acc op => max acc (AppendOp.align op)) s.align := by
  obtain ⟨h1, _, h3, h4, _⟩ := applyOps_spec ops s hpow hmatch
  exact ⟨h1, h3, h4⟩

theorem append_offsets_monotone_aligned_witness :
    List.Chain' (· ≤ ·) (applyOps wDataSec wOps).2
    ∧ (∀ pr ∈ (applyOps wDataSec wOps).2.zip (wOps.map AppendOp.align),
        pr.1 % pr.2 = 0)
    ∧ (applyOps wDataSec wOps).1.align =
        wOps.foldl (fun acc op => max acc (AppendOp.align op)) wDataSec.align :=
  append_offsets_monotone_aligned wDataSec wOps
    (by
      intro op h
      simp only [wOps, List.mem_cons, List.not_mem_nil, or_false] at h
      rcases h with rfl | rfl
      · exact ⟨2, rfl⟩
      · exact ⟨3, rfl⟩)
    (by
      intro op h
      simp only [wOps, List.mem_cons, List.not_mem_nil, or_false] at h
      rcases h with rfl | rfl <;> rfl)

theorem add_relocation_implicit_materializes_witness :
    ∃ w, wPolicy.relocationSize { wReloc with flags := 0 } = .ok w
      ∧ (w = 32 ∨ w = 64)
      ∧ ((Object.add_relocation wPolicy wRelocObj 0 wReloc).2.sections.getD 0
          default).relocations =
        (wRelocObj.sections.getD 0 default).relocations ++
          [{ wReloc with flags := 0, addend := 0 }]
      ∧ (((Object.add_relocation wPolicy wRelocObj 0 wReloc).2.sections.getD 0
            default).data.drop wReloc.offset).take (w / 8) =
          encodeEndian wRelocObj.endian (w / 8) (toUnsigned w wReloc.addend) :=
  add_relocation_implicit_materializes wPolicy wRelocObj 0 wReloc 0 rfl rfl
    (by decide) rfl

theorem add_relocation_invalid_offset_reported_witness :
    (Object.add_relocation wPolicy wRelocObj 0 wReloc7).1 =
      .error (.invalidOffset wReloc7.offset 32
        (wRelocObj.sections.getD 0 default).data.length)
    ∧ (Object.add_relocation wPolicy wRelocObj 0 wReloc7).2 = wRelocObj :=
  add_relocation_invalid_offset_reported wPolicy wRelocObj 0 wReloc7 0 32 rfl
    rfl (by decide) rfl (Or.inl rfl) (by decide)

theorem add_relocation_atomic_on_failure_witness :
    (Object.add_relocation wErrPolicy wElfObj 0 wReloc).2 = wElfObj :=
  add_relocation_atomic_on_failure wErrPolicy wElfObj 0 wReloc (.other []) rfl

theorem add_symbol_section_updates_existing_witness :
    (wObjC3.add_symbol wSectionSym).1 = 0
    ∧ (wObjC3.add_symbol wSectionSym).2.symbols.length = wObjC3.symbols.length
    ∧ ((wObjC3.add_symbol wSectionSym).2.symbols.getD 0 default) =
        { wObjC3.symbols.getD 0 default with
          flags := if wSectionSym.flags ≠ SymbolFlags.None then wSectionSym.flags
                   else (wObjC3.symbols.getD 0 default).flags } :=
  add_symbol_section_updates_existing wObjC3 wSectionSym 0 0 rfl rfl
    (by decide) (by decide)

theorem add_symbol_mangles_and_indexes_witness :
    (wMachObj.add_symbol wTextSym).1 = wMachObj.symbols.length
    ∧ ((wMachObj.add_symbol wTextSym).2.symbols.getD
        (wMachObj.add_symbol wTextSym).1 default) =
      mangled wMachObj.mangling wTextSym
    ∧ (wMachObj.add_symbol wTextSym).2.symbol_id wTextSym.name =
        some (wMachObj.add_symbol wTextSym).1 :=
  add_symbol_mangles_and_indexes wMachObj wTextSym (by decide) (Or.inl rfl)

theorem add_symbol_duplicate_names_witness :
    ((wMachObj.add_symbol wTextSym).2.add_symbol wTextSym2).1 ≠
      (wMachObj.add_symbol wTextSym).1
    ∧ ((wMachObj.add_symbol wTextSym).2.add_symbol
        wTextSym2).2.symbols.length = wMachObj.symbols.length + 2
    ∧ (((wMachObj.add_symbol wTextSym).2.add_symbol wTextSym2).2.symbols.getD
        (wMachObj.add_symbol wTextSym).1 default) =
      mangled wMachObj.mangling wTextSym
    ∧ (((wMachObj.add_symbol wTextSym).2.add_symbol wTextSym2).2.symbols.getD
        ((wMachObj.add_symbol wTextSym).2.add_symbol wTextSym2).1 default) =
      mangled wMachObj.mangling wTextSym2
    ∧ ((wMachObj.add_symbol wTextSym).2.add_symbol wTextSym2).2.symbol_id
        wTextSym.name =
      some ((wMachObj.add_symbol wTextSym).2.add_symbol wTextSym2).1 :=
  add_symbol_duplicate_names wMachObj wTextSym wTextSym2 (by decide) rfl
    (Or.inl rfl) (Or.inl rfl)

theorem section_id_idempotent_order_independent_witness :
    ((wElfObj.section_id .Text).2.section_id .Text =
      ((wElfObj.section_id .Text).1, (wElfObj.section_id .Text).2))
    ∧ ((wElfObj.section_id .Text).1 = wElfObj.sections.length ∧
        (wElfObj.section_id .Text).2.sections = wElfObj.sections ++
          [stdSecOfTriple (sectionTriple wElfObj.format .Text)])
    ∧ (((processRoles wElfObj [.Text, .Data]).sections : Multiset Section) =
        ((processRoles wElfObj [.Data, .Text]).sections : Multiset Section)) :=
  (fun h => ⟨h.1, h.2.1 rfl, h.2.2⟩)
    (section_id_idempotent_order_independent wElfObj .Text [.Text, .Data]
      [.Data, .Text] (by decide))

/-- C8 amended witness: the Mach-O, ELF, and XCOFF conclusions at
concrete objects. -/
theorem add_subsection_amended_witness :
    (wMachObj.add_subsection .Text (str "f") =
        some (wMachObj.section_id .Text)
      ∧ wMachObj.set_subsections_via_symbols =
          { wMachObj with macho_subsections_via_symbols := true })
    ∧ (wElfObj.set_subsections_via_symbols = wElfObj)
    ∧ (∃ o', wElfObj.add_subsection .Text (str "f") =
          some (wElfObj.sections.length, o')
        ∧ o'.sections.length = wElfObj.sections.length + 1
        ∧ subsectionName wElfObj.format (sectionInfo wElfObj.format .Text).2.1
            (str "f") =
          some ((o'.sections.getD wElfObj.sections.length default).name))
    ∧ wXcoffObj.add_subsection .Text (str "f") = none :=
  ⟨(add_subsection_amended wMachObj .Text (str "f")).1 rfl,
   (add_subsection_amended wElfObj .Text (str "f")).2.1 (by decide),
   (add_subsection_amended wElfObj .Text (str "f")).2.2.1 (Or.inr rfl),
   (add_subsection_amended wXcoffObj .Text (str "f")).2.2.2 rfl⟩

end ObjectWrite
